import Mathlib

/-!
# Shallow embedding of the Cashless wallet backend (src/backend/server.py)

The backend is a FastAPI application over a MongoDB document store with two
collections, `users` and `transactions`.  We embed the persistent state as a
pair of Lean lists and each HTTP handler as a pure function from that state
(plus the request data) to a new state and a response.

Modelling conventions, matched against the source:
* Python `float` currency amounts are modelled as rationals `ℚ` (the spec
  calls them "decimal currency amount"); comparisons `<=`, `<` translate
  directly.
* `datetime.utcnow()` and `uuid.uuid4()` are external effects; each handler
  receives the produced timestamp / identifier as an explicit argument.
* `db.users.find_one(filter)` returns the first document matching the filter
  (`List.find?`); `db.users.update_one(filter, {"$set": ...})` updates the
  first matching document (`updateFirst`); `insert_one` appends.
* `HTTPException` raises are modelled by `Except.error` results carrying an
  `ApiError`; a handler that raises before writing returns the state
  unchanged, exactly as the Python code performs no DB write before a raise.
* The stored `created_at` field and the password SHA-256 digest are irrelevant
  to every claim; the password is stored as an uninterpreted string and
  `created_at` is omitted.
-/

namespace Cashless

/-- A document of the `users` collection (server.py lines 144-152): `id`,
`email`, `name`, `password` (hash, uninterpreted here), `balance`, optional
`nfc_id`. -/
structure User where
  id : String
  email : String
  name : String
  password : String
  balance : ℚ
  nfc_id : Option String
  deriving Repr, DecidableEq

/-- A document of the `transactions` collection (server.py lines 302-310):
`id`, `from_user`, `to_user`, `amount`, `description`, `timestamp`, `type`.
Timestamps are modelled as naturals. -/
structure Transaction where
  id : String
  from_user : String
  to_user : String
  amount : ℚ
  description : String
  timestamp : Nat
  type : String
  deriving Repr, DecidableEq

/-- Positional builder for a transaction document: id, from, to, amount,
description, timestamp, type. -/
def mkTx (i f t : String) (a : ℚ) (d : String) (ts : Nat) (ty : String) : Transaction :=
  { id := i, from_user := f, to_user := t, amount := a, description := d
    timestamp := ts, type := ty }

/-- The whole persistent store: the two MongoDB collections. -/
structure DB where
  users : List User
  transactions : List Transaction
  deriving Repr, DecidableEq

/-- Body of POST /api/pay (server.py `PaymentRequest`). -/
structure PaymentRequest where
  to_user : String
  amount : ℚ
  description : String
  method : String
  deriving Repr, DecidableEq

/-- The domain failures the handlers raise via `HTTPException`. -/
inductive ApiError
  /-- 401, `get_current_user`: token's user id not in the store. -/
  | unauthorized
  /-- 400, register: "Email já está em uso". -/
  | emailTaken
  /-- 400, recharge/pay: "Valor deve ser positivo". -/
  | invalidAmount
  /-- 400, pay: "Saldo insuficiente". -/
  | insufficientFunds
  /-- 404, pay: "Usuário destinatário não encontrado". -/
  | recipientNotFound
  /-- 400, pay: "Não é possível transferir para si mesmo". -/
  | selfTransfer
  /-- 400, register-nfc: "NFC ID já está em uso". -/
  | nfcInUse
  deriving Repr, DecidableEq

/-- Model of `db.users.find_one({"id": uid})`: first user document with this id. -/
def findUser (db : DB) (uid : String) : Option User :=
  db.users.find? (fun u => u.id == uid)

/-- Model of `db.users.find_one({"email": e})`. -/
def findUserByEmail (db : DB) (e : String) : Option User :=
  db.users.find? (fun u => u.email == e)

/-- Model of `db.users.find_one({"nfc_id": tag})`. -/
def findUserByNfc (db : DB) (tag : String) : Option User :=
  db.users.find? (fun u => u.nfc_id == some tag)

/-- Mongo `update_one`: rewrite the first element satisfying `p` with `f`. -/
def updateFirst (p : α → Bool) (f : α → α) : List α → List α
  | [] => []
  | x :: xs => if p x then f x :: xs else x :: updateFirst p f xs

/-- Model of `update_one({"id": uid}, {"$set": {"balance": b}})`. -/
def setBalance (users : List User) (uid : String) (b : ℚ) : List User :=
  updateFirst (fun u => u.id == uid) (fun u => { u with balance := b }) users

/-- Success payload of POST /api/register (server.py lines 159-169). -/
structure RegisterResponse where
  token_user_id : String
  user : User
  deriving Repr, DecidableEq

/-- POST /api/register (server.py lines 135-169).  `newId` stands for the
`uuid.uuid4()` drawn by the handler and `now` for `datetime.utcnow()`.  The
password is stored as given (the SHA-256 digest is an external primitive that
no claim inspects). -/
def register (db : DB) (email name password : String) (newId : String)
    (_now : Nat) : DB × Except ApiError RegisterResponse :=
  match findUserByEmail db email with
  | some _ => (db, .error .emailTaken)
  | none =>
    let u : User :=
      { id := newId, email := email, name := name, password := password
        balance := 0, nfc_id := none }
    ({ db with users := db.users ++ [u] }, .ok { token_user_id := newId, user := u })

/-- Success payload of POST /api/recharge (server.py lines 222-226). -/
structure RechargeResponse where
  new_balance : ℚ
  transaction_id : String
  deriving Repr, DecidableEq

/-- POST /api/recharge (server.py lines 195-226).  The authenticated caller is
resolved first (`get_current_user`, a `find_one` on the token's user id); then
the amount is validated, the balance rewritten to the read value plus the
amount, and one transaction document inserted. -/
def recharge_balance (db : DB) (uid : String) (amount : ℚ) (txId : String)
    (now : Nat) : DB × Except ApiError RechargeResponse :=
  match findUser db uid with
  | none => (db, .error .unauthorized)
  | some current =>
    if amount ≤ 0 then (db, .error .invalidAmount)
    else
      let new_balance := current.balance + amount
      let t : Transaction :=
        { id := txId, from_user := "system", to_user := current.id
          amount := amount, description := "Recarga de saldo"
          timestamp := now, type := "recharge" }
      ({ users := setBalance db.users current.id new_balance
         transactions := db.transactions ++ [t] },
       .ok { new_balance := new_balance, transaction_id := txId })

/-- Model of `update_one({"id": uid}, {"$set": {"nfc_id": tag}})`. -/
def setNfcTag (users : List User) (uid : String) (tag : String) : List User :=
  updateFirst (fun u => u.id == uid) (fun u => { u with nfc_id := some tag }) users

/-- POST /api/register-nfc (server.py lines 228-247): reject when the tag's
first holder is a different user, otherwise set the caller's `nfc_id`. -/
def register_nfc (db : DB) (uid : String) (tag : String) :
    DB × Except ApiError String :=
  match findUser db uid with
  | none => (db, .error .unauthorized)
  | some current =>
    match findUserByNfc db tag with
    | some existing =>
      if existing.id != current.id then (db, .error .nfcInUse)
      else ({ db with users := setNfcTag db.users current.id tag }, .ok tag)
    | none => ({ db with users := setNfcTag db.users current.id tag }, .ok tag)

/-- Success payload of POST /api/pay (server.py lines 313-318). -/
structure PayResponse where
  transaction_id : String
  new_balance : ℚ
  recipient : String
  deriving Repr, DecidableEq

/-- POST /api/pay (server.py lines 267-318).  Checks run in source order:
amount positivity (line 272), sender balance (line 275, against the balance
read at authentication time), recipient existence (line 279), self-transfer
(line 283); then both balances are rewritten and one transaction inserted. -/
def make_payment (db : DB) (senderId : String) (p : PaymentRequest)
    (txId : String) (now : Nat) : DB × Except ApiError PayResponse :=
  match findUser db senderId with
  | none => (db, .error .unauthorized)
  | some current =>
    if p.amount ≤ 0 then (db, .error .invalidAmount)
    else if current.balance < p.amount then (db, .error .insufficientFunds)
    else
      match findUser db p.to_user with
      | none => (db, .error .recipientNotFound)
      | some recipient =>
        if current.id == p.to_user then (db, .error .selfTransfer)
        else
          let new_sender_balance := current.balance - p.amount
          let new_recipient_balance := recipient.balance + p.amount
          let users1 := setBalance db.users current.id new_sender_balance
          let users2 := setBalance users1 p.to_user new_recipient_balance
          let t : Transaction :=
            { id := txId, from_user := current.id, to_user := p.to_user
              amount := p.amount, description := p.description
              timestamp := now, type := p.method }
          ({ users := users2, transactions := db.transactions ++ [t] },
           .ok { transaction_id := txId, new_balance := new_sender_balance
                 recipient := recipient.name })

/-- A transaction as returned by GET /api/transactions: the stored document
plus the resolved `from_name` / `to_name` keys (server.py lines 342-350). -/
structure AnnTx extends Transaction where
  from_name : String
  to_name : String
  deriving Repr, DecidableEq

/-- Display-name resolution used by GET /api/transactions: the user's `name`
when the id resolves, the fallback label "Usuário" otherwise. -/
def resolveName (db : DB) (uid : String) : String :=
  match findUser db uid with
  | some u => u.name
  | none => "Usuário"

/-- The per-transaction annotation step (server.py lines 342-350): the system
sentinel resolves to the fixed label "Sistema". -/
def annotate (db : DB) (t : Transaction) : AnnTx :=
  { toTransaction := t
    from_name := if t.from_user == "system" then "Sistema" else resolveName db t.from_user
    to_name := resolveName db t.to_user }

/-- Insert a transaction into a list kept in non-increasing timestamp order. -/
def insertDesc (t : Transaction) : List Transaction → List Transaction
  | [] => [t]
  | u :: us =>
    if u.timestamp ≤ t.timestamp then t :: u :: us else u :: insertDesc t us

/-- Mongo `.sort("timestamp", -1)`: a permutation of the list in
non-increasing timestamp order (insertion sort; Mongo fixes no tie order). -/
def sortDesc : List Transaction → List Transaction
  | [] => []
  | t :: ts => insertDesc t (sortDesc ts)

/-- GET /api/transactions (server.py lines 332-352): the caller's transactions
(as sender or recipient), newest first, capped at 50, each annotated with
resolved names. -/
def get_transactions (db : DB) (uid : String) :
    Except ApiError (List AnnTx) :=
  match findUser db uid with
  | none => .error .unauthorized
  | some current =>
    .ok (((sortDesc (db.transactions.filter
        (fun t => t.from_user == current.id || t.to_user == current.id))).take 50).map
      (annotate db))

/-- True when `needle` equals an initial segment of `hay`. -/
def startsWithChars : List Char → List Char → Bool
  | _, [] => true
  | [], _ :: _ => false
  | h :: hs, n :: ns => h == n && startsWithChars hs ns

/-- True when `needle` occurs as a contiguous run inside `hay`. -/
def containsChars (needle : List Char) : List Char → Bool
  | [] => startsWithChars [] needle
  | c :: cs => startsWithChars (c :: cs) needle || containsChars needle cs

/-- Mongo `{"$regex": q, "$options": "i"}` on a stored string, for a pattern
without regex metacharacters: case-insensitive substring containment
(both strings lowered character by character, as `String.toLower` does). -/
def containsCI (s q : String) : Bool :=
  containsChars (q.data.map Char.toLower) (s.data.map Char.toLower)

/-- An element of the GET /api/users/search response (server.py 371-378). -/
structure SearchResult where
  id : String
  name : String
  email : String
  deriving Repr, DecidableEq

/-- GET /api/users/search (server.py lines 354-378): empty for queries shorter
than 2 characters; otherwise the first 10 users, other than the caller, whose
name or email matches the query case-insensitively, projected to
id/name/email. -/
def search_users (db : DB) (uid : String) (q : String) :
    Except ApiError (List SearchResult) :=
  match findUser db uid with
  | none => .error .unauthorized
  | some current =>
    if q.length < 2 then .ok []
    else
      .ok (((db.users.filter (fun u =>
          u.id != current.id && (containsCI u.name q || containsCI u.email q))).take 10).map
        (fun u => { id := u.id, name := u.name, email := u.email }))

/-!
## Interleaving model of concurrent POST /api/pay requests

Each request handler runs `get_current_user` (a `find_one` that reads the
sender's stored balance into `current_user`) and later, in `make_payment`,
checks `current_user.balance < amount` against that **read** value and issues
`update_one({"$set": {"balance": current_user.balance - amount}})` — an
absolute write computed from the same read value.  We model one shared sender
balance and two in-flight requests; each request is two atomic events, the
read and the check-and-write, which the scheduler may interleave freely.
-/

/-- Program counter of one in-flight pay request against the shared sender
balance: not yet authenticated, holding the balance it read, or finished
(successfully or with "Saldo insuficiente"). -/
inductive TaskState
  | start
  | readDone (observed : ℚ)
  | finished (success : Bool)
  deriving Repr, DecidableEq

/-- One atomic event of a pay task: `start` performs the `find_one` read;
`readDone b` performs the Python check `b < amount` and, when it passes, the
single-document write of the absolute value `b - amount`. -/
def taskStep (balance : ℚ) (amount : ℚ) : TaskState → ℚ × TaskState
  | .start => (balance, .readDone balance)
  | .readDone b =>
    if b < amount then (balance, .finished false) else (b - amount, .finished true)
  | .finished ok => (balance, .finished ok)

/-- Shared state: the sender's stored balance and two pay requests with their
amounts. -/
structure ConcPay where
  balance : ℚ
  amount1 : ℚ
  task1 : TaskState
  amount2 : ℚ
  task2 : TaskState
  deriving Repr, DecidableEq

/-- Scheduler step: run one atomic event of the chosen task. -/
def concStep (s : ConcPay) (pick : Bool) : ConcPay :=
  if pick then
    let r := taskStep s.balance s.amount1 s.task1
    { s with balance := r.1, task1 := r.2 }
  else
    let r := taskStep s.balance s.amount2 s.task2
    { s with balance := r.1, task2 := r.2 }

/-- Run a whole schedule of interleaved events. -/
def runConc (s : ConcPay) (sched : List Bool) : ConcPay :=
  sched.foldl concStep s

/-- The spec's race scenario: balance 100, two concurrent transfers of 60. -/
def raceInit : ConcPay :=
  { balance := 100, amount1 := 60, task1 := .start, amount2 := 60, task2 := .start }

/-!
## Execution traces of user-facing operations

For the ledger invariant we run arbitrary sequences of the three
balance-touching operations.  The external id generator (`uuid.uuid4()`) and
clock (`datetime.utcnow()`) are modelled by a monotone counter threaded
through the trace: each step draws a fresh user id / transaction id and a
fresh timestamp, which is exactly the freshness the real generators provide
(uuid4 values never collide with each other nor with the literal "system").
-/

/-- Total credited to `uid`: recharges plus received transfers. -/
def sumTo (ts : List Transaction) (uid : String) : ℚ :=
  ((ts.filter (fun t => t.to_user == uid)).map Transaction.amount).sum

/-- Total debited from `uid`: sent transfers. -/
def sumFrom (ts : List Transaction) (uid : String) : ℚ :=
  ((ts.filter (fun t => t.from_user == uid)).map Transaction.amount).sum

/-- The user-supplied part of one balance-touching API call. -/
inductive Op
  | register (email name password : String)
  | recharge (uid : String) (amount : ℚ)
  | pay (uid : String) (req : PaymentRequest)

/-- The `n`-th fresh user id drawn by the model's uuid generator. -/
def mkId (n : Nat) : String := String.mk (List.replicate (n + 1) 'u')

/-- The `n`-th fresh transaction id drawn by the model's uuid generator. -/
def mkTxId (n : Nat) : String := String.mk (List.replicate (n + 1) 't')

/-- Run one API call against the store, consuming one counter tick as the
fresh uuid / timestamp. -/
def applyOp : DB × Nat → Op → DB × Nat
  | (db, n), .register e nm pw => ((register db e nm pw (mkId n) n).1, n + 1)
  | (db, n), .recharge uid a => ((recharge_balance db uid a (mkTxId n) n).1, n + 1)
  | (db, n), .pay uid req => ((make_payment db uid req (mkTxId n) n).1, n + 1)

/-- The store reached from the empty store by a trace of API calls. -/
def runOps (ops : List Op) : DB :=
  (ops.foldl applyOp (⟨[], []⟩, 0)).1

/-- Inductive invariant of a reachable store, counter at `n`: every user id
was drawn before `n`; ids are duplicate-free; every transaction references
stored users (or the system sentinel as sender); every balance equals the
ledger sum credits − debits; and every balance is non-negative. -/
structure Inv (db : DB) (n : Nat) : Prop where
  ids_lt : ∀ u ∈ db.users, ∃ k, k < n ∧ u.id = mkId k
  nodup : (db.users.map User.id).Nodup
  txrefs : ∀ t ∈ db.transactions,
    (t.from_user = "system" ∨ t.from_user ∈ db.users.map User.id) ∧
    t.to_user ∈ db.users.map User.id
  ledger : ∀ u ∈ db.users,
    u.balance = sumTo db.transactions u.id - sumFrom db.transactions u.id
  nonneg : ∀ u ∈ db.users, 0 ≤ u.balance

/-!
## Shared concrete fixtures for witnesses and counterexamples
-/

/-- Fixture: a user with balance 100. -/
def aliceW : User :=
  { id := "A", email := "a@x.com", name := "Alice", password := "p"
    balance := 100, nfc_id := none }

/-- Fixture: a user with balance 0. -/
def bobW : User :=
  { id := "B", email := "b@x.com", name := "Bob", password := "p"
    balance := 0, nfc_id := none }

/-- Fixture store holding the two users and no transactions. -/
def dbW : DB := { users := [aliceW, bobW], transactions := [] }

/-- Fixture pay request: Alice sends Bob 60. -/
def payReqW : PaymentRequest :=
  { to_user := "B", amount := 60, description := "lunch", method := "transfer" }

/-- Fixture pay request: self-transfer of 200, more than Alice's balance. -/
def selfReqW : PaymentRequest :=
  { to_user := "A", amount := 200, description := "d", method := "transfer" }

/-- Fixture trace: a single registration. -/
def opsW : List Op := [Op.register "w@x.com" "Wanda" "pw"]

/-- The user the fixture trace creates. -/
def wandaW : User :=
  { id := mkId 0, email := "w@x.com", name := "Wanda", password := "pw"
    balance := 0, nfc_id := none }

/-- Fixture: a user already holding NFC tag "TAG". -/
def carolW : User :=
  { id := "C", email := "c@x.com", name := "Carol", password := "p"
    balance := 0, nfc_id := some "TAG" }

/-- Fixture store with the single NFC-holding user. -/
def dbNfcW : DB := { users := [carolW], transactions := [] }

/-- Fixture transaction: Alice pays Bob 3 at time 2. -/
def txW1 : Transaction := mkTx "x" "A" "B" 3 "d" 2 "qr"

/-- Fixture transaction: a recharge of 9 to Alice at time 5. -/
def txW2 : Transaction := mkTx "y" "system" "A" 9 "r" 5 "recharge"

/-- Fixture store with two users and two transactions (older one first). -/
def dbTxW : DB := { users := [aliceW, bobW], transactions := [txW1, txW2] }

/-!
## Lemmas about `find?` after `update_one`
-/

/-- An `update_one` keyed on id `a` (with an id-preserving rewrite) is
invisible to a `find_one` keyed on a different id `b`. -/
theorem find?_updateFirst_of_ne (us : List User) (f : User → User)
    (hf : ∀ u, (f u).id = u.id) (a b : String) (hab : a ≠ b) :
    (updateFirst (fun u => u.id == a) f us).find? (fun u => u.id == b) =
      us.find? (fun u => u.id == b) := by
  induction us with
  | nil => rfl
  | cons h t ih =>
    by_cases hha : h.id = a
    · have h1 : updateFirst (fun u => u.id == a) f (h :: t) = f h :: t := by
        simp [updateFirst, hha]
      have hfb : ¬ ((f h).id == b) = true := by simp [hf h, hha, hab]
      have hhb : ¬ (h.id == b) = true := by simp [hha, hab]
      rw [h1, List.find?_cons_of_neg (p := fun u : User => u.id == b) _ hfb,
        List.find?_cons_of_neg (p := fun u : User => u.id == b) _ hhb]
    · have h1 : updateFirst (fun u => u.id == a) f (h :: t) =
          h :: updateFirst (fun u => u.id == a) f t := by
        simp [updateFirst, hha]
      rw [h1]
      by_cases hhb : h.id = b
      · rw [List.find?_cons_of_pos (p := fun u : User => u.id == b) _ (by simp [hhb]),
          List.find?_cons_of_pos (p := fun u : User => u.id == b) _ (by simp [hhb])]
      · rw [List.find?_cons_of_neg (p := fun u : User => u.id == b) _ (by simp [hhb]),
          List.find?_cons_of_neg (p := fun u : User => u.id == b) _ (by simp [hhb])]
        exact ih

/-- A `find_one` keyed on the same id an `update_one` was keyed on sees
exactly the rewritten first match. -/
theorem find?_updateFirst_self (us : List User) (f : User → User)
    (hf : ∀ u, (f u).id = u.id) (a : String) :
    (updateFirst (fun u => u.id == a) f us).find? (fun u => u.id == a) =
      (us.find? (fun u => u.id == a)).map f := by
  induction us with
  | nil => rfl
  | cons h t ih =>
    by_cases hha : h.id = a
    · have h1 : updateFirst (fun u => u.id == a) f (h :: t) = f h :: t := by
        simp [updateFirst, hha]
      rw [h1, List.find?_cons_of_pos (p := fun u : User => u.id == a) _ (by simp [hf h, hha]),
        List.find?_cons_of_pos (p := fun u : User => u.id == a) _ (by simp [hha])]
      rfl
    · have h1 : updateFirst (fun u => u.id == a) f (h :: t) =
          h :: updateFirst (fun u => u.id == a) f t := by
        simp [updateFirst, hha]
      rw [h1, List.find?_cons_of_neg (p := fun u : User => u.id == a) _ (by simp [hha]),
        List.find?_cons_of_neg (p := fun u : User => u.id == a) _ (by simp [hha])]
      exact ih

/-- Specialisation of `find?_updateFirst_of_ne` to balance writes. -/
theorem find?_setBalance_ne (us : List User) (a b : String) (x : ℚ) (hab : a ≠ b) :
    (setBalance us a x).find? (fun u => u.id == b) = us.find? (fun u => u.id == b) :=
  find?_updateFirst_of_ne us (fun u => { u with balance := x }) (fun _ => rfl) a b hab

/-- Specialisation of `find?_updateFirst_self` to balance writes. -/
theorem find?_setBalance_self (us : List User) (a : String) (x : ℚ) :
    (setBalance us a x).find? (fun u => u.id == a) =
      (us.find? (fun u => u.id == a)).map (fun u => { u with balance := x }) :=
  find?_updateFirst_self us (fun u => { u with balance := x }) (fun _ => rfl) a

/-- When the ids are duplicate-free, Mongo's first-match `update_one` keyed
on an id rewrites every (i.e. the unique) match: it equals a pointwise map. -/
theorem updateFirst_id_eq_map (us : List User) (a : String) (f : User → User)
    (h : (us.map User.id).Nodup) :
    updateFirst (fun u => u.id == a) f us =
      us.map (fun u => if u.id == a then f u else u) := by
  induction us with
  | nil => rfl
  | cons x t ih =>
    rw [List.map_cons, List.nodup_cons] at h
    by_cases hx : x.id = a
    · have hbeq : (x.id == a) = true := by simp [hx]
      have htail : List.map (fun u => if u.id == a then f u else u) t = t := by
        have ht' : ∀ u ∈ t, (if u.id == a then f u else u) = u := by
          intro u hu
          have hmem : u.id ∈ t.map User.id := List.mem_map_of_mem User.id hu
          have hne : ¬ (u.id == a) = true := by
            simp only [beq_iff_eq]
            intro hc
            rw [hc, ← hx] at hmem
            exact h.1 hmem
          rw [if_neg hne]
        rw [List.map_congr_left ht', List.map_id']
      rw [List.map_cons, if_pos hbeq, htail]
      simp [updateFirst, hbeq]
    · have hbeq : ¬ (x.id == a) = true := by simp [hx]
      rw [List.map_cons, if_neg hbeq]
      simp [updateFirst, hbeq, ih h.2]

/-- The id found by `findUser` is the id asked for. -/
theorem findUser_id {db : DB} {uid : String} {u : User}
    (h : findUser db uid = some u) : u.id = uid := by
  have h' : db.users.find? (fun v => v.id == uid) = some u := h
  have := List.find?_some h'
  simpa using this

/-- Spec §3 invariant: no two users hold the same NFC tag (stated on ids, so
it is meaningful even for duplicate documents). -/
def NfcUnique (db : DB) : Prop :=
  ∀ v ∈ db.users, ∀ w ∈ db.users, ∀ t : String,
    v.nfc_id = some t → w.nfc_id = some t → v.id = w.id

/-- Writing `tag` onto the user with id `cur.id` keeps NFC tags unique,
provided every current holder of `tag` already has that id. -/
theorem nfc_unique_after_set (db : DB) (cur : User) (tag : String)
    (hnodup : (db.users.map User.id).Nodup)
    (huniq : NfcUnique db)
    (hall : ∀ w ∈ db.users, w.nfc_id = some tag → w.id = cur.id) :
    NfcUnique { db with users := setNfcTag db.users cur.id tag } := by
  intro v' hv' w' hw' t hvt hwt
  have hv2 : v' ∈ setNfcTag db.users cur.id tag := hv'
  have hw2 : w' ∈ setNfcTag db.users cur.id tag := hw'
  unfold setNfcTag at hv2 hw2
  rw [updateFirst_id_eq_map _ _ _ hnodup] at hv2 hw2
  obtain ⟨v, hv, rfl⟩ := List.mem_map.mp hv2
  obtain ⟨w, hw, rfl⟩ := List.mem_map.mp hw2
  by_cases hvc : v.id = cur.id <;> by_cases hwc : w.id = cur.id
  · simp [hvc, hwc]
  · simp only [hvc, beq_self_eq_true, if_pos] at hvt ⊢
    simp only [show ¬ (w.id == cur.id) = true by simp [hwc], Bool.false_eq_true,
      if_neg, reduceCtorEq] at hwt ⊢
    simp only [Option.some.injEq] at hvt
    rw [← hvt] at hwt
    exact absurd (hall w hw hwt) (by simpa [hvc] using hwc)
  · simp only [hwc, beq_self_eq_true, if_pos] at hwt ⊢
    simp only [show ¬ (v.id == cur.id) = true by simp [hvc], Bool.false_eq_true,
      if_neg, reduceCtorEq] at hvt ⊢
    simp only [Option.some.injEq] at hwt
    rw [← hwt] at hvt
    exact absurd (hall v hv hvt) (by simpa [hwc] using hvc)
  · simp only [show ¬ (v.id == cur.id) = true by simp [hvc], Bool.false_eq_true,
      if_neg] at hvt ⊢
    simp only [show ¬ (w.id == cur.id) = true by simp [hwc], Bool.false_eq_true,
      if_neg] at hwt ⊢
    exact huniq v hv w hw t hvt hwt

/-- Membership through one insertion step of the timestamp sort. -/
theorem mem_insertDesc {x t : Transaction} {l : List Transaction} :
    x ∈ insertDesc t l ↔ x = t ∨ x ∈ l := by
  induction l with
  | nil => simp [insertDesc]
  | cons u us ih =>
    by_cases hc : u.timestamp ≤ t.timestamp
    · simp [insertDesc, hc]
    · simp [insertDesc, hc, ih]
      tauto

/-- The timestamp sort only returns stored transactions. -/
theorem mem_sortDesc {x : Transaction} {l : List Transaction}
    (h : x ∈ sortDesc l) : x ∈ l := by
  induction l with
  | nil => simpa [sortDesc] using h
  | cons u us ih =>
    rcases mem_insertDesc.mp h with h1 | h1
    · simp [h1]
    · simp [ih h1]

/-- Inserting into a non-increasing list keeps it non-increasing. -/
theorem pairwise_insertDesc (t : Transaction) (l : List Transaction)
    (h : l.Pairwise (fun a b => b.timestamp ≤ a.timestamp)) :
    (insertDesc t l).Pairwise (fun a b => b.timestamp ≤ a.timestamp) := by
  induction l with
  | nil => simp [insertDesc]
  | cons u us ih =>
    rw [List.pairwise_cons] at h
    by_cases hc : u.timestamp ≤ t.timestamp
    · rw [insertDesc, if_pos hc, List.pairwise_cons]
      refine ⟨?_, List.pairwise_cons.mpr h⟩
      intro y hy
      rcases List.mem_cons.mp hy with rfl | hy'
      · exact hc
      · exact le_trans (h.1 y hy') hc
    · rw [insertDesc, if_neg hc, List.pairwise_cons]
      refine ⟨?_, ih h.2⟩
      intro y hy
      rcases mem_insertDesc.mp hy with rfl | hy'
      · exact le_of_lt (lt_of_not_le hc)
      · exact h.1 y hy'

/-- The Mongo descending timestamp sort is sorted: newest first. -/
theorem pairwise_sortDesc (l : List Transaction) :
    (sortDesc l).Pairwise (fun a b => b.timestamp ≤ a.timestamp) := by
  induction l with
  | nil => simp [sortDesc]
  | cons u us ih => exact pairwise_insertDesc u (sortDesc us) ih

/-!
## Lemmas for the ledger invariant
-/

/-- Distinct counter values give distinct generated user ids. -/
theorem mkId_inj {m n : Nat} (h : mkId m = mkId n) : m = n := by
  have hd : List.replicate (m + 1) 'u' = List.replicate (n + 1) 'u' :=
    congrArg String.data h
  have hl := congrArg List.length hd
  simp only [List.length_replicate] at hl
  omega

/-- A generated user id is never the system sentinel. -/
theorem mkId_ne_system (k : Nat) : mkId k ≠ "system" := by
  intro h
  have hd : List.replicate (k + 1) 'u' = "system".data := congrArg String.data h
  have h6 : "system".data.length = 6 := rfl
  have hl := congrArg List.length hd
  rw [h6, List.length_replicate] at hl
  have hk : k = 5 := by omega
  rw [hk] at hd
  exact absurd hd (by decide)

/-- Appending one transaction adds its amount to the credit sum of its
recipient and leaves every other credit sum unchanged. -/
theorem sumTo_append (ts : List Transaction) (t : Transaction) (uid : String) :
    sumTo (ts ++ [t]) uid =
      sumTo ts uid + (if t.to_user == uid then t.amount else 0) := by
  by_cases h : (t.to_user == uid) = true <;>
    simp [sumTo, List.filter_append, h]

/-- Appending one transaction adds its amount to the debit sum of its sender
and leaves every other debit sum unchanged. -/
theorem sumFrom_append (ts : List Transaction) (t : Transaction) (uid : String) :
    sumFrom (ts ++ [t]) uid =
      sumFrom ts uid + (if t.from_user == uid then t.amount else 0) := by
  by_cases h : (t.from_user == uid) = true <;>
    simp [sumFrom, List.filter_append, h]

/-- An id no transaction credits has credit sum zero. -/
theorem sumTo_eq_zero (ts : List Transaction) (uid : String)
    (h : ∀ t ∈ ts, t.to_user ≠ uid) : sumTo ts uid = 0 := by
  unfold sumTo
  rw [List.filter_eq_nil_iff.mpr (by intro t ht; simpa using h t ht)]
  rfl

/-- An id no transaction debits has debit sum zero. -/
theorem sumFrom_eq_zero (ts : List Transaction) (uid : String)
    (h : ∀ t ∈ ts, t.from_user ≠ uid) : sumFrom ts uid = 0 := by
  unfold sumFrom
  rw [List.filter_eq_nil_iff.mpr (by intro t ht; simpa using h t ht)]
  rfl

/-- An id-preserving `update_one` leaves the id column unchanged. -/
theorem map_id_updateFirst (us : List User) (p : User → Bool) (f : User → User)
    (hf : ∀ u, (f u).id = u.id) :
    (updateFirst p f us).map User.id = us.map User.id := by
  induction us with
  | nil => rfl
  | cons x t ih =>
    by_cases hx : p x = true
    · simp [updateFirst, hx, hf x]
    · simp [updateFirst, hx, ih]

/-- The invariant is monotone in the counter bound. -/
theorem inv_mono {db : DB} {n m : Nat} (h : Inv db n) (hnm : n ≤ m) : Inv db m :=
  ⟨fun u hu => by
      obtain ⟨k, hk, hid⟩ := h.ids_lt u hu
      exact ⟨k, lt_of_lt_of_le hk hnm, hid⟩,
    h.nodup, h.txrefs, h.ledger, h.nonneg⟩

/-- The empty store satisfies the invariant. -/
theorem inv_empty : Inv ⟨[], []⟩ 0 := by
  refine ⟨?_, ?_, ?_, ?_, ?_⟩ <;> simp

/-- POST /api/register preserves the reachable-store invariant. -/
theorem inv_register (db : DB) (n : Nat) (e nm pw : String) (hI : Inv db n) :
    Inv (register db e nm pw (mkId n) n).1 (n + 1) := by
  cases hm : findUserByEmail db e with
  | some u =>
    have hres : (register db e nm pw (mkId n) n).1 = db := by simp [register, hm]
    rw [hres]
    exact inv_mono hI (Nat.le_succ n)
  | none =>
    have hres : (register db e nm pw (mkId n) n).1 =
        { db with users := db.users ++ [⟨mkId n, e, nm, pw, 0, none⟩] } := by
      simp [register, hm]
    have hfresh : ∀ u ∈ db.users, u.id ≠ mkId n := by
      intro u hu hc
      obtain ⟨k, hk, hkid⟩ := hI.ids_lt u hu
      rw [hkid] at hc
      exact absurd (mkId_inj hc) (by omega)
    have hfreshids : mkId n ∉ db.users.map User.id := by
      intro hmem
      obtain ⟨u, hu, hue⟩ := List.mem_map.mp hmem
      exact hfresh u hu hue
    rw [hres]
    refine ⟨?_, ?_, ?_, ?_, ?_⟩
    · intro u hu
      rcases List.mem_append.mp hu with h1 | h1
      · obtain ⟨k, hk, hid⟩ := hI.ids_lt u h1
        exact ⟨k, by omega, hid⟩
      · rw [List.mem_singleton.mp h1]
        exact ⟨n, by omega, rfl⟩
    · rw [List.map_append, List.nodup_append]
      refine ⟨hI.nodup, List.nodup_singleton _, ?_⟩
      intro a ha hb
      have hab : a = mkId n := by simpa using hb
      rw [hab] at ha
      exact hfreshids ha
    · intro t ht
      obtain ⟨h1, h2⟩ := hI.txrefs t ht
      constructor
      · rcases h1 with h | h
        · exact Or.inl h
        · exact Or.inr (by rw [List.map_append]; exact List.mem_append_left _ h)
      · rw [List.map_append]
        exact List.mem_append_left _ h2
    · intro u hu
      rcases List.mem_append.mp hu with h1 | h1
      · exact hI.ledger u h1
      · rw [List.mem_singleton.mp h1]
        rw [sumTo_eq_zero _ _ ?_, sumFrom_eq_zero _ _ ?_]
        · norm_num
        · intro t ht hc
          rcases (hI.txrefs t ht).1 with h | h
          · exact mkId_ne_system n (hc ▸ h).symm.symm
          · obtain ⟨v, hv, hve⟩ := List.mem_map.mp h
            exact hfresh v hv (hve.trans hc)
        · intro t ht hc
          obtain ⟨v, hv, hve⟩ := List.mem_map.mp (hI.txrefs t ht).2
          exact hfresh v hv (hve.trans hc)
    · intro u hu
      rcases List.mem_append.mp hu with h1 | h1
      · exact hI.nonneg u h1
      · rw [List.mem_singleton.mp h1]

/-- POST /api/recharge preserves the reachable-store invariant. -/
theorem inv_recharge (db : DB) (n : Nat) (uid : String) (a : ℚ) (tid : String)
    (tnow : Nat) (hI : Inv db n) :
    Inv (recharge_balance db uid a tid tnow).1 (n + 1) := by
  cases hf : findUser db uid with
  | none =>
    have hres : (recharge_balance db uid a tid tnow).1 = db := by
      simp [recharge_balance, hf]
    rw [hres]
    exact inv_mono hI (Nat.le_succ n)
  | some u =>
    by_cases ha : a ≤ 0
    · have hres : (recharge_balance db uid a tid tnow).1 = db := by
        simp [recharge_balance, hf, ha]
      rw [hres]
      exact inv_mono hI (Nat.le_succ n)
    · have hid : u.id = uid := findUser_id hf
      have hum : u ∈ db.users := List.mem_of_find?_eq_some hf
      have husys : ∀ v ∈ db.users, v.id ≠ "system" := by
        intro v hv
        obtain ⟨k, _, hk⟩ := hI.ids_lt v hv
        rw [hk]
        exact mkId_ne_system k
      have hres : (recharge_balance db uid a tid tnow).1 =
          ⟨setBalance db.users u.id (u.balance + a),
            db.transactions ++ [mkTx tid "system" u.id a "Recarga de saldo" tnow "recharge"]⟩ := by
        simp [recharge_balance, mkTx, hf, ha]
      have hmap : setBalance db.users u.id (u.balance + a) =
          db.users.map (fun v => if v.id == u.id then { v with balance := u.balance + a } else v) :=
        updateFirst_id_eq_map db.users u.id _ hI.nodup
      have hgid : ∀ v : User,
          (if v.id == u.id then { v with balance := u.balance + a } else v).id = v.id := by
        intro v
        by_cases h : (v.id == u.id) = true <;> simp [h]
      have hids : (db.users.map
          (fun v => if v.id == u.id then { v with balance := u.balance + a } else v)).map
            User.id = db.users.map User.id := by
        rw [List.map_map]
        exact List.map_congr_left (fun v _ => hgid v)
      rw [hres, hmap]
      refine ⟨?_, ?_, ?_, ?_, ?_⟩
      · intro v' hv'
        obtain ⟨v, hv, rfl⟩ := List.mem_map.mp hv'
        obtain ⟨k, hk, hkid⟩ := hI.ids_lt v hv
        exact ⟨k, by omega, (hgid v).trans hkid⟩
      · show ((db.users.map _).map User.id).Nodup
        rw [hids]
        exact hI.nodup
      · intro t ht
        rcases List.mem_append.mp ht with h1 | h1
        · obtain ⟨hf1, hf2⟩ := hI.txrefs t h1
          constructor
          · rcases hf1 with h | h
            · exact Or.inl h
            · exact Or.inr (by rw [hids]; exact h)
          · rw [hids]
            exact hf2
        · rw [List.mem_singleton.mp h1]
          refine ⟨Or.inl rfl, ?_⟩
          rw [hids]
          exact List.mem_map_of_mem User.id hum
      · intro v' hv'
        obtain ⟨v, hv, rfl⟩ := List.mem_map.mp hv'
        by_cases hvc : (v.id == u.id) = true
        · have hveq : v = u :=
            List.inj_on_of_nodup_map hI.nodup hv hum (by simpa using hvc)
          subst hveq
          rw [if_pos hvc]
          show v.balance + a = _
          rw [sumTo_append, sumFrom_append]
          have hsysne : ¬ ("system" = v.id) := fun hc => husys v hum hc.symm
          simp [mkTx, hsysne]
          rw [hI.ledger v hum]
          ring
        · rw [if_neg hvc]
          rw [sumTo_append, sumFrom_append]
          have hne : v.id ≠ u.id := by simpa using hvc
          have h1 : ¬ (u.id = v.id) := fun hc => hne hc.symm
          have h2 : ¬ ("system" = v.id) := fun hc => husys v hv hc.symm
          simp [mkTx, h1, h2]
          exact hI.ledger v hv
      · intro v' hv'
        obtain ⟨v, hv, rfl⟩ := List.mem_map.mp hv'
        by_cases hvc : (v.id == u.id) = true
        · have hveq : v = u :=
            List.inj_on_of_nodup_map hI.nodup hv hum (by simpa using hvc)
          subst hveq
          rw [if_pos hvc]
          exact add_nonneg (hI.nonneg v hum) (le_of_lt (not_le.mp ha))
        · rw [if_neg hvc]
          exact hI.nonneg v hv

/-- POST /api/pay preserves the reachable-store invariant. -/
theorem inv_pay (db : DB) (n : Nat) (uid : String) (req : PaymentRequest)
    (tid : String) (tnow : Nat) (hI : Inv db n) :
    Inv (make_payment db uid req tid tnow).1 (n + 1) := by
  cases hf : findUser db uid with
  | none =>
    have hres : (make_payment db uid req tid tnow).1 = db := by
      simp [make_payment, hf]
    rw [hres]
    exact inv_mono hI (Nat.le_succ n)
  | some cur =>
    by_cases h1 : req.amount ≤ 0
    · have hres : (make_payment db uid req tid tnow).1 = db := by
        simp [make_payment, hf, h1]
      rw [hres]
      exact inv_mono hI (Nat.le_succ n)
    · by_cases h2 : cur.balance < req.amount
      · have hres : (make_payment db uid req tid tnow).1 = db := by
          simp [make_payment, hf, h1, h2]
        rw [hres]
        exact inv_mono hI (Nat.le_succ n)
      · cases hr : findUser db req.to_user with
        | none =>
          have hres : (make_payment db uid req tid tnow).1 = db := by
            simp [make_payment, hf, h1, h2, hr]
          rw [hres]
          exact inv_mono hI (Nat.le_succ n)
        | some rcp =>
          by_cases h3 : (cur.id == req.to_user) = true
          · have hres : (make_payment db uid req tid tnow).1 = db := by
              simp [make_payment, hf, h1, h2, hr, h3]
            rw [hres]
            exact inv_mono hI (Nat.le_succ n)
          · have hcm : cur ∈ db.users := List.mem_of_find?_eq_some hf
            have hrm : rcp ∈ db.users := List.mem_of_find?_eq_some hr
            have hrid : rcp.id = req.to_user := findUser_id hr
            have hne : cur.id ≠ req.to_user := by simpa using h3
            have ha' : 0 < req.amount := not_le.mp h1
            have hble : req.amount ≤ cur.balance := not_lt.mp h2
            have husys : ∀ v ∈ db.users, v.id ≠ "system" := by
              intro v hv
              obtain ⟨k, _, hk⟩ := hI.ids_lt v hv
              rw [hk]
              exact mkId_ne_system k
            have hres : (make_payment db uid req tid tnow).1 =
                ⟨setBalance (setBalance db.users cur.id (cur.balance - req.amount))
                    req.to_user (rcp.balance + req.amount),
                  db.transactions ++
                    [mkTx tid cur.id req.to_user req.amount req.description tnow req.method]⟩ := by
              simp [make_payment, mkTx, hf, h1, h2, hr, h3]
            have hmap1 : setBalance db.users cur.id (cur.balance - req.amount) =
                db.users.map (fun v => if v.id == cur.id
                  then { v with balance := cur.balance - req.amount } else v) :=
              updateFirst_id_eq_map db.users cur.id _ hI.nodup
            have hg1id : ∀ v : User, (if (v.id == cur.id) = true
                then { v with balance := cur.balance - req.amount } else v).id = v.id := by
              intro v
              by_cases h : (v.id == cur.id) = true
              · rw [if_pos h]
              · rw [if_neg h]
            have hg2id : ∀ w : User, (if (w.id == req.to_user) = true
                then { w with balance := rcp.balance + req.amount } else w).id = w.id := by
              intro w
              by_cases h : (w.id == req.to_user) = true
              · rw [if_pos h]
              · rw [if_neg h]
            have hids1 : (db.users.map (fun v => if v.id == cur.id
                then { v with balance := cur.balance - req.amount } else v)).map User.id =
                  db.users.map User.id := by
              rw [List.map_map]
              exact List.map_congr_left (fun v _ => hg1id v)
            have hmap2 : setBalance (db.users.map (fun v => if v.id == cur.id
                then { v with balance := cur.balance - req.amount } else v))
                  req.to_user (rcp.balance + req.amount) =
                (db.users.map (fun v => if v.id == cur.id
                  then { v with balance := cur.balance - req.amount } else v)).map
                  (fun w => if w.id == req.to_user
                    then { w with balance := rcp.balance + req.amount } else w) :=
              updateFirst_id_eq_map _ req.to_user _ (by rw [hids1]; exact hI.nodup)
            have hids : ((db.users.map (fun v => if v.id == cur.id
                then { v with balance := cur.balance - req.amount } else v)).map
                  (fun w => if w.id == req.to_user
                    then { w with balance := rcp.balance + req.amount } else w)).map User.id =
                db.users.map User.id := by
              rw [List.map_map]
              rw [show (User.id ∘ fun w => if w.id == req.to_user
                  then { w with balance := rcp.balance + req.amount } else w) = User.id
                from funext (fun w => hg2id w)]
              exact hids1
            rw [hres, hmap1, hmap2]
            refine ⟨?_, ?_, ?_, ?_, ?_⟩
            · intro v' hv'
              obtain ⟨w, hw, rfl⟩ := List.mem_map.mp hv'
              obtain ⟨v, hv, rfl⟩ := List.mem_map.mp hw
              obtain ⟨k, hk, hkid⟩ := hI.ids_lt v hv
              refine ⟨k, by omega, ?_⟩
              rw [← hkid, hg2id, hg1id]
            · show (List.map User.id _).Nodup
              rw [hids]
              exact hI.nodup
            · intro t ht
              rcases List.mem_append.mp ht with hto | hto
              · obtain ⟨hf1, hf2⟩ := hI.txrefs t hto
                constructor
                · rcases hf1 with h | h
                  · exact Or.inl h
                  · exact Or.inr (by rw [hids]; exact h)
                · rw [hids]
                  exact hf2
              · rw [List.mem_singleton.mp hto]
                constructor
                · refine Or.inr ?_
                  rw [hids]
                  exact List.mem_map_of_mem User.id hcm
                · rw [hids]
                  show req.to_user ∈ _
                  rw [← hrid]
                  exact List.mem_map_of_mem User.id hrm
            · intro v' hv'
              obtain ⟨w, hw, rfl⟩ := List.mem_map.mp hv'
              obtain ⟨v, hv, rfl⟩ := List.mem_map.mp hw
              rw [sumTo_append, sumFrom_append]
              by_cases hvc : (v.id == cur.id) = true
              · have hveq : v = cur :=
                  List.inj_on_of_nodup_map hI.nodup hv hcm (by simpa using hvc)
                subst hveq
                have hvt : ¬ ((if (v.id == v.id) = true
                    then { v with balance := v.balance - req.amount } else v).id ==
                      req.to_user) = true := by
                  rw [if_pos hvc]
                  simpa using hne
                rw [if_neg hvt, if_pos hvc]
                show v.balance - req.amount = _
                have htne : ¬ (req.to_user = v.id) := fun hc => hne hc.symm
                simp [mkTx, htne]
                rw [hI.ledger v hv]
                ring
              · have hvnc : v.id ≠ cur.id := by simpa using hvc
                rw [if_neg hvc]
                by_cases hvt : (v.id == req.to_user) = true
                · have hveq : v = rcp := by
                    refine List.inj_on_of_nodup_map hI.nodup hv hrm ?_
                    show v.id = rcp.id
                    rw [hrid]
                    simpa using hvt
                  subst hveq
                  rw [if_pos hvt]
                  show v.balance + req.amount = _
                  have htv : req.to_user = v.id := hrid.symm
                  have hfne : ¬ (cur.id = v.id) := fun hc => hvnc hc.symm
                  simp [mkTx, htv, hfne]
                  rw [hI.ledger v hv]
                  rw [← htv]
                  ring
                · have hvnt : v.id ≠ req.to_user := by simpa using hvt
                  rw [if_neg hvt]
                  have htne : ¬ (req.to_user = v.id) := fun hc => hvnt hc.symm
                  have hfne : ¬ (cur.id = v.id) := fun hc => hvnc hc.symm
                  simp [mkTx, htne, hfne]
                  exact hI.ledger v hv
            · intro v' hv'
              obtain ⟨w, hw, rfl⟩ := List.mem_map.mp hv'
              obtain ⟨v, hv, rfl⟩ := List.mem_map.mp hw
              by_cases hvc : (v.id == cur.id) = true
              · have hveq : v = cur :=
                  List.inj_on_of_nodup_map hI.nodup hv hcm (by simpa using hvc)
                subst hveq
                have hvt : ¬ ((if (v.id == v.id) = true
                    then { v with balance := v.balance - req.amount } else v).id ==
                      req.to_user) = true := by
                  rw [if_pos hvc]
                  simpa using hne
                rw [if_neg hvt, if_pos hvc]
                show (0 : ℚ) ≤ v.balance - req.amount
                exact sub_nonneg.mpr hble
              · rw [if_neg hvc]
                by_cases hvt : (v.id == req.to_user) = true
                · have hveq : v = rcp := by
                    refine List.inj_on_of_nodup_map hI.nodup hv hrm ?_
                    show v.id = rcp.id
                    rw [hrid]
                    simpa using hvt
                  subst hveq
                  rw [if_pos hvt]
                  show (0 : ℚ) ≤ v.balance + req.amount
                  exact add_nonneg (hI.nonneg v hv) ha'.le
                · rw [if_neg hvt]
                  exact hI.nonneg v hv

/-- Folding a trace of API calls preserves the invariant. -/
theorem inv_foldl (ops : List Op) (s : DB × Nat) (h : Inv s.1 s.2) :
    Inv (ops.foldl applyOp s).1 (ops.foldl applyOp s).2 := by
  induction ops generalizing s with
  | nil => exact h
  | cons op rest ih =>
    rw [List.foldl_cons]
    apply ih
    obtain ⟨db, n⟩ := s
    cases op with
    | register e nm pw => exact inv_register db n e nm pw h
    | recharge uid a => exact inv_recharge db n uid a (mkTxId n) n h
    | pay uid req => exact inv_pay db n uid req (mkTxId n) n h

/-!
## Theorems
-/

/-- Claim C1.  The code runs the balance check against the balance read at
authentication time and then writes an absolute value computed from that same
stale read, so under the schedule read₁, read₂, write₁, write₂ the spec's race
scenario (balance 100, two concurrent transfers of 60 each) ends with *both*
requests succeeding and the stored balance 40: the second debit is lost,
where the claim requires exactly one request to succeed and the other to fail
with InsufficientFunds. -/
theorem race_both_transfers_succeed :
    (runConc raceInit [true, false, true, false]).task1 = .finished true ∧
    (runConc raceInit [true, false, true, false]).task2 = .finished true ∧
    (runConc raceInit [true, false, true, false]).balance = 40 := by
  refine ⟨rfl, rfl, ?_⟩
  have h : (runConc raceInit [true, false, true, false]).balance = (100 : ℚ) - 60 := rfl
  rw [h]; norm_num

/-- Claim C5.  Whenever POST /api/pay fails, no write has been issued: the
resulting store is exactly the input store. -/
theorem pay_failure_preserves_state (db : DB) (sid : String) (p : PaymentRequest)
    (tid : String) (now : Nat) (e : ApiError)
    (h : (make_payment db sid p tid now).2 = .error e) :
    (make_payment db sid p tid now).1 = db := by
  cases hf : findUser db sid with
  | none => simp [make_payment, hf]
  | some cur =>
    by_cases h1 : p.amount ≤ 0
    · simp [make_payment, hf, h1]
    · by_cases h2 : cur.balance < p.amount
      · simp [make_payment, hf, h1, h2]
      · cases hr : findUser db p.to_user with
        | none => simp [make_payment, hf, h1, h2, hr]
        | some rcp =>
          by_cases h3 : cur.id = p.to_user
          · simp [make_payment, hf, h1, h2, hr, h3]
          · exfalso
            simp [make_payment, hf, h1, h2, hr, h3] at h

/-- Witness for C5: a failed self-transfer of 200 from a balance of 100
leaves the store untouched. -/
theorem pay_failure_preserves_state_witness :
    (make_payment dbW "A" selfReqW "t1" 5).2 = .error .insufficientFunds ∧
    (make_payment dbW "A" selfReqW "t1" 5).1 = dbW :=
  ⟨rfl, pay_failure_preserves_state dbW "A" selfReqW "t1" 5 .insufficientFunds rfl⟩

/-- Claim C10.  The insufficient-balance check (server.py line 275) runs before
the recipient-existence and self-transfer checks (lines 279, 283): any
authenticated pay request with positive amount exceeding the sender's balance
fails with "Saldo insuficiente", whatever `to_user` is. -/
theorem insufficient_check_first (db : DB) (sid : String) (p : PaymentRequest)
    (tid : String) (now : Nat) (cur : User)
    (hf : findUser db sid = some cur)
    (ha : 0 < p.amount) (hb : cur.balance < p.amount) :
    (make_payment db sid p tid now).2 = .error .insufficientFunds := by
  simp [make_payment, hf, not_le.mpr ha, hb]

/-- Witness for C10: a self-transfer of 200 with recipient field equal to the
sender (so both the self-transfer and, for a missing id, the not-found
conditions could fire) still reports insufficient funds. -/
theorem insufficient_check_first_witness :
    findUser dbW "A" = some aliceW ∧ (0 : ℚ) < selfReqW.amount ∧
    aliceW.balance < selfReqW.amount ∧
    (make_payment dbW "A" selfReqW "t1" 5).2 = .error .insufficientFunds :=
  ⟨rfl, by decide, by decide,
    insufficient_check_first dbW "A" selfReqW "t1" 5 aliceW rfl (by decide) (by decide)⟩

/-- Claim C2.  A pay request meeting all preconditions (positive amount, sender
distinct from recipient, recipient present, sufficient balance) debits the
sender by the amount, credits the recipient by the amount, appends exactly one
transaction recording the transfer, conserves the two balances' sum, and
reports the new sender balance. -/
theorem transfer_correct (db : DB) (sid : String) (p : PaymentRequest)
    (tid : String) (now : Nat) (cur rcp : User)
    (hs : findUser db sid = some cur)
    (hr : findUser db p.to_user = some rcp)
    (ha : 0 < p.amount)
    (hne : sid ≠ p.to_user)
    (hbal : p.amount ≤ cur.balance) :
    findUser (make_payment db sid p tid now).1 sid =
      some { cur with balance := cur.balance - p.amount } ∧
    findUser (make_payment db sid p tid now).1 p.to_user =
      some { rcp with balance := rcp.balance + p.amount } ∧
    (make_payment db sid p tid now).1.transactions =
      db.transactions ++ [mkTx tid sid p.to_user p.amount p.description now p.method] ∧
    (cur.balance - p.amount) + (rcp.balance + p.amount) = cur.balance + rcp.balance ∧
    (make_payment db sid p tid now).2 =
      .ok ⟨tid, cur.balance - p.amount, rcp.name⟩ := by
  have hid : cur.id = sid := findUser_id hs
  have ha' : ¬ p.amount ≤ 0 := not_le.mpr ha
  have hb' : ¬ cur.balance < p.amount := not_lt.mpr hbal
  have hself : ¬ (cur.id == p.to_user) = true := by simp [hid, hne]
  have hres : make_payment db sid p tid now =
      (⟨setBalance (setBalance db.users cur.id (cur.balance - p.amount))
          p.to_user (rcp.balance + p.amount),
        db.transactions ++ [mkTx tid cur.id p.to_user p.amount p.description now p.method]⟩,
       .ok ⟨tid, cur.balance - p.amount, rcp.name⟩) := by
    simp [make_payment, mkTx, hs, hr, ha', hb', hself]
  rw [hid] at hres
  refine ⟨?_, ?_, ?_, by ring, ?_⟩
  · rw [hres]
    show (setBalance (setBalance db.users sid (cur.balance - p.amount))
        p.to_user (rcp.balance + p.amount)).find? (fun u => u.id == sid) = _
    rw [find?_setBalance_ne _ _ _ _ (Ne.symm hne), find?_setBalance_self]
    have hs' : db.users.find? (fun u => u.id == sid) = some cur := hs
    rw [hs']
    rfl
  · rw [hres]
    show (setBalance (setBalance db.users sid (cur.balance - p.amount))
        p.to_user (rcp.balance + p.amount)).find? (fun u => u.id == p.to_user) = _
    rw [find?_setBalance_self, find?_setBalance_ne _ _ _ _ hne]
    have hr' : db.users.find? (fun u => u.id == p.to_user) = some rcp := hr
    rw [hr']
    rfl
  · rw [hres]
  · rw [hres]

/-- Witness for C2: Alice (balance 100) pays Bob (balance 0) 60. -/
theorem transfer_correct_witness :
    findUser dbW "A" = some aliceW ∧ findUser dbW payReqW.to_user = some bobW ∧
    (0 : ℚ) < payReqW.amount ∧ "A" ≠ payReqW.to_user ∧
    payReqW.amount ≤ aliceW.balance ∧
    (findUser (make_payment dbW "A" payReqW "t1" 5).1 "A" =
        some { aliceW with balance := aliceW.balance - payReqW.amount } ∧
      findUser (make_payment dbW "A" payReqW "t1" 5).1 payReqW.to_user =
        some { bobW with balance := bobW.balance + payReqW.amount } ∧
      (make_payment dbW "A" payReqW "t1" 5).1.transactions =
        dbW.transactions ++
          [mkTx "t1" "A" payReqW.to_user payReqW.amount payReqW.description 5 payReqW.method] ∧
      (aliceW.balance - payReqW.amount) + (bobW.balance + payReqW.amount) =
        aliceW.balance + bobW.balance ∧
      (make_payment dbW "A" payReqW "t1" 5).2 =
        .ok ⟨"t1", aliceW.balance - payReqW.amount, bobW.name⟩) :=
  ⟨rfl, rfl, by decide, by decide, by decide,
    transfer_correct dbW "A" payReqW "t1" 5 aliceW bobW rfl rfl
      (by decide) (by decide) (by decide)⟩

/-- Claim C6.  A recharge of a positive amount rewrites the caller's balance to
the old balance plus the amount and appends exactly one transaction from the
system sentinel to the caller tagged "recharge"; a non-positive amount is
rejected with the 400 validation error and the store is unchanged. -/
theorem recharge_correct (db : DB) (uid : String) (a : ℚ) (tid : String)
    (now : Nat) (u : User) (hu : findUser db uid = some u) :
    (0 < a →
      findUser (recharge_balance db uid a tid now).1 uid =
        some { u with balance := u.balance + a } ∧
      (recharge_balance db uid a tid now).1.transactions =
        db.transactions ++ [mkTx tid "system" uid a "Recarga de saldo" now "recharge"] ∧
      (recharge_balance db uid a tid now).2 =
        .ok { new_balance := u.balance + a, transaction_id := tid }) ∧
    (a ≤ 0 → recharge_balance db uid a tid now = (db, .error .invalidAmount)) := by
  have hid : u.id = uid := findUser_id hu
  constructor
  · intro ha
    have ha' : ¬ a ≤ 0 := not_le.mpr ha
    have hres : recharge_balance db uid a tid now =
        (⟨setBalance db.users u.id (u.balance + a),
          db.transactions ++ [mkTx tid "system" u.id a "Recarga de saldo" now "recharge"]⟩,
         .ok ⟨u.balance + a, tid⟩) := by
      simp [recharge_balance, mkTx, hu, ha']
    rw [hid] at hres
    refine ⟨?_, ?_, ?_⟩
    · rw [hres]
      show (setBalance db.users uid (u.balance + a)).find? (fun v => v.id == uid) = _
      rw [find?_setBalance_self]
      have hu' : db.users.find? (fun v => v.id == uid) = some u := hu
      rw [hu']
      rfl
    · rw [hres]
    · rw [hres]
  · intro ha
    simp [recharge_balance, hu, ha]

/-- Witness for C6: Bob (balance 0) recharges 5. -/
theorem recharge_correct_witness :
    findUser dbW "B" = some bobW ∧
    ((0 : ℚ) < 5 →
      findUser (recharge_balance dbW "B" 5 "t2" 7).1 "B" =
        some { bobW with balance := bobW.balance + 5 } ∧
      (recharge_balance dbW "B" 5 "t2" 7).1.transactions =
        dbW.transactions ++ [mkTx "t2" "system" "B" 5 "Recarga de saldo" 7 "recharge"] ∧
      (recharge_balance dbW "B" 5 "t2" 7).2 =
        .ok { new_balance := bobW.balance + 5, transaction_id := "t2" }) ∧
    ((5 : ℚ) ≤ 0 → recharge_balance dbW "B" 5 "t2" 7 = (dbW, .error .invalidAmount)) :=
  ⟨rfl, recharge_correct dbW "B" 5 "t2" 7 bobW rfl⟩

/-- Claim C4, amended.  With the caller authenticated, the error of POST
/api/pay is decided by the first failing check in source order: InvalidAmount
iff the amount is non-positive; InsufficientFunds iff the amount is positive
and exceeds the sender's balance; RecipientNotFound iff, additionally to a
positive covered amount, the recipient id resolves to no user; SelfTransfer
iff amount and balance pass, the recipient resolves, and the recipient is the
sender.  In particular a self-transfer with amount above the balance fails
with InsufficientFunds, not SelfTransfer. -/
theorem pay_error_cases (db : DB) (sid : String) (p : PaymentRequest)
    (tid : String) (now : Nat) (cur : User)
    (hs : findUser db sid = some cur) :
    ((make_payment db sid p tid now).2 = .error .invalidAmount ↔ p.amount ≤ 0) ∧
    ((make_payment db sid p tid now).2 = .error .insufficientFunds ↔
      0 < p.amount ∧ cur.balance < p.amount) ∧
    ((make_payment db sid p tid now).2 = .error .recipientNotFound ↔
      0 < p.amount ∧ p.amount ≤ cur.balance ∧ findUser db p.to_user = none) ∧
    ((make_payment db sid p tid now).2 = .error .selfTransfer ↔
      0 < p.amount ∧ p.amount ≤ cur.balance ∧
        (findUser db p.to_user).isSome ∧ sid = p.to_user) := by
  have hid : cur.id = sid := findUser_id hs
  by_cases h1 : p.amount ≤ 0
  · simp [make_payment, hs, h1, not_lt.mpr h1]
  · by_cases h2 : cur.balance < p.amount
    · simp [make_payment, hs, h1, h2, not_le.mp h1, not_le.mpr h2]
    · cases hr : findUser db p.to_user with
      | none =>
        simp [make_payment, hs, h1, h2, hr, not_le.mp h1, not_lt.mp h2]
      | some rcp =>
        by_cases h3 : cur.id = p.to_user
        · simp [make_payment, hs, h1, h2, hr, h3, not_le.mp h1, not_lt.mp h2,
            iff_true_intro (hid.symm.trans h3)]
        · have h3' : sid ≠ p.to_user := fun hc => h3 (hid.trans hc)
          simp [make_payment, hs, h1, h2, hr, h3, not_le.mp h1, not_lt.mp h2, h3']

/-- Witness for the amended C4, instantiated at Alice's self-transfer of
200 from balance 100. -/
theorem pay_error_cases_witness :
    findUser dbW "A" = some aliceW ∧
    (((make_payment dbW "A" selfReqW "t1" 5).2 = .error .invalidAmount ↔
        selfReqW.amount ≤ 0) ∧
      ((make_payment dbW "A" selfReqW "t1" 5).2 = .error .insufficientFunds ↔
        0 < selfReqW.amount ∧ aliceW.balance < selfReqW.amount) ∧
      ((make_payment dbW "A" selfReqW "t1" 5).2 = .error .recipientNotFound ↔
        0 < selfReqW.amount ∧ selfReqW.amount ≤ aliceW.balance ∧
          findUser dbW selfReqW.to_user = none) ∧
      ((make_payment dbW "A" selfReqW "t1" 5).2 = .error .selfTransfer ↔
        0 < selfReqW.amount ∧ selfReqW.amount ≤ aliceW.balance ∧
          (findUser dbW selfReqW.to_user).isSome ∧ "A" = selfReqW.to_user)) :=
  ⟨rfl, pay_error_cases dbW "A" selfReqW "t1" 5 aliceW rfl⟩

/-- Claim C7.  Registering an NFC tag held by a *different* user fails with the
400 conflict error and leaves the store untouched; re-registering a tag the
caller already holds succeeds; and the register-nfc operation preserves the
uniqueness of NFC tags across users (assuming it held before, with
duplicate-free user ids). -/
theorem register_nfc_spec (db : DB) (uid tag : String) (cur : User)
    (hu : findUser db uid = some cur)
    (hnodup : (db.users.map User.id).Nodup)
    (huniq : NfcUnique db) :
    (∀ v ∈ db.users, v.nfc_id = some tag → v.id ≠ uid →
      register_nfc db uid tag = (db, .error .nfcInUse)) ∧
    (cur.nfc_id = some tag → (register_nfc db uid tag).2 = .ok tag) ∧
    NfcUnique (register_nfc db uid tag).1 := by
  have hid : cur.id = uid := findUser_id hu
  have hcurmem : cur ∈ db.users := List.mem_of_find?_eq_some hu
  refine ⟨?_, ?_, ?_⟩
  · intro v hv hvt hvne
    cases he : findUserByNfc db tag with
    | none =>
      exfalso
      have hnone : ∀ x ∈ db.users, ¬ (x.nfc_id == some tag) = true :=
        List.find?_eq_none.mp he
      exact hnone v hv (by simp [hvt])
    | some e =>
      have hemem : e ∈ db.users := List.mem_of_find?_eq_some he
      have hetag : e.nfc_id = some tag := by
        have := List.find?_some he
        simpa using this
      have hvid : v.id = e.id := huniq v hv e hemem tag hvt hetag
      have hne : e.id ≠ cur.id := fun hc => hvne (hvid.trans (hc.trans hid))
      simp [register_nfc, hu, he, hne]
  · intro hct
    cases he : findUserByNfc db tag with
    | none =>
      exfalso
      have hnone : ∀ x ∈ db.users, ¬ (x.nfc_id == some tag) = true :=
        List.find?_eq_none.mp he
      exact hnone cur hcurmem (by simp [hct])
    | some e =>
      have hemem : e ∈ db.users := List.mem_of_find?_eq_some he
      have hetag : e.nfc_id = some tag := by
        have := List.find?_some he
        simpa using this
      have heq : e.id = cur.id := huniq e hemem cur hcurmem tag hetag hct
      simp [register_nfc, hu, he, heq]
  · cases he : findUserByNfc db tag with
    | none =>
      have hall : ∀ w ∈ db.users, w.nfc_id = some tag → w.id = cur.id := by
        intro w hw hwt
        exact absurd (by simp [hwt]) ((List.find?_eq_none.mp he) w hw)
      have hres : (register_nfc db uid tag).1 =
          { db with users := setNfcTag db.users cur.id tag } := by
        simp [register_nfc, hu, he]
      rw [hres]
      exact nfc_unique_after_set db cur tag hnodup huniq hall
    | some e =>
      have hemem : e ∈ db.users := List.mem_of_find?_eq_some he
      have hetag : e.nfc_id = some tag := by
        have := List.find?_some he
        simpa using this
      by_cases hcond : e.id = cur.id
      · have hall : ∀ w ∈ db.users, w.nfc_id = some tag → w.id = cur.id := by
          intro w hw hwt
          exact (huniq w hw e hemem tag hwt hetag).trans hcond
        have hres : (register_nfc db uid tag).1 =
            { db with users := setNfcTag db.users cur.id tag } := by
          simp [register_nfc, hu, he, hcond]
        rw [hres]
        exact nfc_unique_after_set db cur tag hnodup huniq hall
      · have hres : (register_nfc db uid tag).1 = db := by
          simp [register_nfc, hu, he, hcond]
        rw [hres]
        exact huniq

/-- Witness for C7: Carol re-registers her own tag. -/
theorem register_nfc_spec_witness :
    findUser dbNfcW "C" = some carolW ∧
    (dbNfcW.users.map User.id).Nodup ∧
    NfcUnique dbNfcW ∧
    ((∀ v ∈ dbNfcW.users, v.nfc_id = some "TAG" → v.id ≠ "C" →
        register_nfc dbNfcW "C" "TAG" = (dbNfcW, .error .nfcInUse)) ∧
      (carolW.nfc_id = some "TAG" → (register_nfc dbNfcW "C" "TAG").2 = .ok "TAG") ∧
      NfcUnique (register_nfc dbNfcW "C" "TAG").1) := by
  have hnu : NfcUnique dbNfcW := by
    intro v hv w hw t h1 h2
    rw [List.mem_singleton.mp hv, List.mem_singleton.mp hw]
  exact ⟨rfl, by decide, hnu,
    register_nfc_spec dbNfcW "C" "TAG" carolW rfl (by decide) hnu⟩

/-- Claim C8.  The transaction history of an authenticated user contains at
most 50 entries, is ordered newest first, and every entry is the annotation
of a stored transaction whose sender or recipient is that user, with the
sender name "Sistema" for the system sentinel, and otherwise the resolved
display names of the two parties. -/
theorem get_transactions_spec (db : DB) (uid : String) (r : List AnnTx)
    (h : get_transactions db uid = .ok r) :
    r.length ≤ 50 ∧
    List.Pairwise (fun a b : AnnTx => b.timestamp ≤ a.timestamp) r ∧
    ∀ e ∈ r,
      (e.from_user = uid ∨ e.to_user = uid) ∧
      (∃ t ∈ db.transactions, e = annotate db t) ∧
      (e.from_user = "system" → e.from_name = "Sistema") ∧
      (e.from_user ≠ "system" →
        ∀ u, findUser db e.from_user = some u → e.from_name = u.name) ∧
      (∀ u, findUser db e.to_user = some u → e.to_name = u.name) := by
  cases hf : findUser db uid with
  | none => simp [get_transactions, hf] at h
  | some cur =>
    have hid : cur.id = uid := findUser_id hf
    have hr : r = List.take 50 ((sortDesc (db.transactions.filter
        (fun t => t.from_user == cur.id || t.to_user == cur.id))).map
          (annotate db)) := by
      have h' := h
      simp [get_transactions, hf] at h'
      exact h'.symm
    subst hr
    refine ⟨?_, ?_, ?_⟩
    · rw [List.length_take]
      exact min_le_left _ _
    · refine List.Pairwise.sublist (List.take_sublist 50 _) ?_
      rw [List.pairwise_map]
      exact pairwise_sortDesc (db.transactions.filter
        (fun t => t.from_user == cur.id || t.to_user == cur.id))
    · intro e he
      obtain ⟨t, ht, rfl⟩ := List.mem_map.mp (List.mem_of_mem_take he)
      have htl : t ∈ db.transactions.filter
          (fun t => t.from_user == cur.id || t.to_user == cur.id) :=
        mem_sortDesc ht
      obtain ⟨htm, htp⟩ := List.mem_filter.mp htl
      have hor : t.from_user = uid ∨ t.to_user = uid := by
        rw [← hid]
        simpa using htp
      refine ⟨hor, ⟨t, htm, rfl⟩, ?_, ?_, ?_⟩
      · intro hsys
        have hsys' : t.from_user = "system" := hsys
        simp [annotate, hsys']
      · intro hsys u hu
        have hsys' : ¬ (t.from_user == "system") = true := by
          simpa using hsys
        have hu' : findUser db t.from_user = some u := hu
        simp [annotate, hsys', resolveName, hu']
      · intro u hu
        have hu' : findUser db t.to_user = some u := hu
        simp [annotate, resolveName, hu']

/-- Witness for C8: Alice's history is the two transactions, newest first,
with resolved names. -/
theorem get_transactions_spec_witness :
    get_transactions dbTxW "A" =
      .ok [⟨txW2, "Sistema", "Alice"⟩, ⟨txW1, "Alice", "Bob"⟩] ∧
    ([(⟨txW2, "Sistema", "Alice"⟩ : AnnTx), ⟨txW1, "Alice", "Bob"⟩].length ≤ 50 ∧
      List.Pairwise (fun a b : AnnTx => b.timestamp ≤ a.timestamp)
        [⟨txW2, "Sistema", "Alice"⟩, ⟨txW1, "Alice", "Bob"⟩] ∧
      ∀ e ∈ [(⟨txW2, "Sistema", "Alice"⟩ : AnnTx), ⟨txW1, "Alice", "Bob"⟩],
        (e.from_user = "A" ∨ e.to_user = "A") ∧
        (∃ t ∈ dbTxW.transactions, e = annotate dbTxW t) ∧
        (e.from_user = "system" → e.from_name = "Sistema") ∧
        (e.from_user ≠ "system" →
          ∀ u, findUser dbTxW e.from_user = some u → e.from_name = u.name) ∧
        (∀ u, findUser dbTxW e.to_user = some u → e.to_name = u.name)) :=
  ⟨rfl, get_transactions_spec dbTxW "A"
    [⟨txW2, "Sistema", "Alice"⟩, ⟨txW1, "Alice", "Bob"⟩] rfl⟩

/-- Claim C9.  User search returns the empty list for queries shorter than 2
characters; otherwise it returns at most 10 entries, none of them the
requesting user, and each with a name or email containing the query
case-insensitively. -/
theorem search_users_spec (db : DB) (uid q : String) (r : List SearchResult)
    (h : search_users db uid q = .ok r) :
    (q.length < 2 → r = []) ∧
    r.length ≤ 10 ∧
    ∀ e ∈ r, e.id ≠ uid ∧
      (containsCI e.name q = true ∨ containsCI e.email q = true) := by
  cases hf : findUser db uid with
  | none => simp [search_users, hf] at h
  | some cur =>
    have hid : cur.id = uid := findUser_id hf
    by_cases hq : q.length < 2
    · have hr : r = [] := by
        have h' := h
        simp [search_users, hf, hq] at h'
        first
        | exact h'
        | exact h'.symm
      subst hr
      exact ⟨fun _ => rfl, by simp, by simp⟩
    · have hr : r = List.take 10 ((db.users.filter (fun u =>
          u.id != cur.id && (containsCI u.name q || containsCI u.email q))).map
            (fun u => { id := u.id, name := u.name, email := u.email })) := by
        have h' := h
        simp [search_users, hf, hq] at h'
        exact h'.symm
      subst hr
      refine ⟨fun hlt => absurd hlt hq, ?_, ?_⟩
      · rw [List.length_take]
        exact min_le_left _ _
      · intro e he
        obtain ⟨u, hul, rfl⟩ := List.mem_map.mp (List.mem_of_mem_take he)
        obtain ⟨hum, hup⟩ := List.mem_filter.mp hul
        have hup' : u.id ≠ cur.id ∧
            (containsCI u.name q = true ∨ containsCI u.email q = true) := by
          simpa using hup
        exact ⟨by simpa [hid] using hup'.1, hup'.2⟩

/-- Witness for C9: searching "bo" as Alice returns exactly Bob. -/
theorem search_users_spec_witness :
    search_users dbW "A" "bo" = .ok [{ id := "B", name := "Bob", email := "b@x.com" }] ∧
    (("bo".length < 2 → [({ id := "B", name := "Bob", email := "b@x.com" } : SearchResult)] = []) ∧
      [({ id := "B", name := "Bob", email := "b@x.com" } : SearchResult)].length ≤ 10 ∧
      ∀ e ∈ [({ id := "B", name := "Bob", email := "b@x.com" } : SearchResult)],
        e.id ≠ "A" ∧
        (containsCI e.name "bo" = true ∨ containsCI e.email "bo" = true)) :=
  ⟨rfl, search_users_spec dbW "A" "bo"
    [{ id := "B", name := "Bob", email := "b@x.com" }] rfl⟩

/-- Claim C3.  In every store reachable from the empty store by any trace of
register / recharge / pay calls, every user's balance is non-negative and
equals zero plus the amounts credited to the user (recharges and received
transfers) minus the amounts the user sent. -/
theorem balance_ledger_invariant (ops : List Op) :
    ∀ u ∈ (runOps ops).users,
      0 ≤ u.balance ∧
      u.balance = sumTo (runOps ops).transactions u.id -
        sumFrom (runOps ops).transactions u.id := by
  intro u hu
  have h := inv_foldl ops ⟨⟨[], []⟩, 0⟩ inv_empty
  exact ⟨h.nonneg u hu, h.ledger u hu⟩

/-- Witness for C3: after the one-registration trace, the created user has
balance 0 = 0 − 0. -/
theorem balance_ledger_invariant_witness :
    wandaW ∈ (runOps opsW).users ∧
    (0 ≤ wandaW.balance ∧
      wandaW.balance = sumTo (runOps opsW).transactions wandaW.id -
        sumFrom (runOps opsW).transactions wandaW.id) :=
  ⟨by decide, balance_ledger_invariant opsW wandaW (by decide)⟩

/-- Claim C4, counterexample.  The claim says a pay request with sender =
recipient fails with SelfTransfer *regardless of balance*; on the code a
self-transfer of 200 from a balance of 100 fails with InsufficientFunds
instead, because the balance check runs first. -/
theorem self_transfer_error_counterexample :
    selfReqW.to_user = "A" ∧
    (make_payment dbW "A" selfReqW "t1" 5).2 = .error .insufficientFunds ∧
    ApiError.insufficientFunds ≠ ApiError.selfTransfer :=
  ⟨rfl, rfl, by decide⟩

end Cashless
